import Mathlib

/-!
Verification of the `advancedDataTable` Lightning Web Component core
(`advancedDataTable.js` and the `dataTableService` helper module).

The development shallowly embeds the data-reconciliation core of the
component: the search engine (`formatSearchString`,
`dataTableSearchResult`), the sort engine (`handleSort`,
`resolveFieldValue` and its comparator), the selection tracker
(`handleRowSelection`), and the component-level state transitions
(`handleLoadMore`, `handleSort`, `handleSearch`,
`maintainSelectionState`).

Modelling conventions:
* JavaScript strings are Lean `String`s; `toLowerCase`, single-character
  `split` and `includes` are modelled by the structurally recursive
  `jsToLower`, `jsSplit` and `jsIncludes` below, so that every definition
  evaluates inside the kernel.
* A table row reaching the search engine and the component is a flat
  record with string field values, modelled as an association list
  `List (String × String)`; `record[field]` is the first binding for
  `field`, `none` standing for JavaScript `undefined`.
* For the sort engine, whose comparator is type-directed, a JavaScript
  value is the inductive `Value` (null/undefined, boolean, number, string,
  plain object); numbers are modelled as integers, which is all the
  arithmetic-difference comparator needs.  `Date` objects cannot occur at
  comparison time because the engine compares rows of
  `JSON.parse(JSON.stringify(tableData))`, which never contains `Date`s,
  so the comparator's dead `instanceof Date` branch is not modelled.
* The deep copy `JSON.parse(JSON.stringify(...))` is the identity on the
  modelled (JSON) values.
* `localeCompare` is modelled as code-point lexicographic comparison; the
  claims settled here never depend on locale-specific ordering.
-/

/-- Characters matched by the JavaScript regex class `\s` (the common
whitespace characters; exotic unicode space classes are not modelled). -/
def isWS (c : Char) : Bool :=
  c = ' ' || c = '\t' || c = '\n' || c = '\r' || c = '\x0b' || c = '\x0c'

/-- Character-list core of `formatSearchString`'s
`searchValue.replace(/\s*,\s*/g, ",")`: scanning left to right, each
maximal run of whitespace–comma–whitespace collapses to a single comma.
`afterComma` is true while whitespace directly following an emitted comma
is being consumed; `pend` holds (reversed) whitespace not yet known to
precede a comma. -/
def fmtAux (afterComma : Bool) (pend : List Char) : List Char → List Char
  | [] => pend.reverse
  | c :: rest =>
    if isWS c then
      if afterComma then fmtAux true [] rest else fmtAux false (c :: pend) rest
    else if c = ',' then ',' :: fmtAux true [] rest
    else pend.reverse ++ (c :: fmtAux false [] rest)

/-- Embedding of `formatSearchString` (dataTableService): removes
whitespace immediately before and after every comma. -/
def formatSearchString (searchValue : String) : String :=
  String.mk (fmtAux false [] searchValue.toList)

/-- Splitter for JavaScript `s.split(sep)` with a one-character separator
(the module only ever splits on `','` and `'.'`): accumulates the current
segment in reverse in `acc`. -/
def splitAux (sep : Char) (acc : List Char) : List Char → List String
  | [] => [String.mk acc.reverse]
  | c :: rest =>
    if c = sep then String.mk acc.reverse :: splitAux sep [] rest
    else splitAux sep (c :: acc) rest

/-- Embedding of JavaScript `s.split(sep)` for a one-character separator;
like its JavaScript original it keeps empty segments and splits the empty
string into `[""]`. -/
def jsSplit (s : String) (sep : Char) : List String :=
  splitAux sep [] s.toList

/-- Embedding of `s.toLowerCase()` (ASCII case mapping). -/
def jsToLower (s : String) : String :=
  String.mk (s.toList.map Char.toLower)

/-- Does the character list `hay` start with `needle`? -/
def startsWithL : List Char → List Char → Bool
  | _, [] => true
  | [], _ :: _ => false
  | h :: hs, n :: ns => h = n && startsWithL hs ns

/-- Contiguous-substring test on character lists. -/
def containsL : List Char → List Char → Bool
  | [], needle => startsWithL [] needle
  | c :: rest, needle => startsWithL (c :: rest) needle || containsL rest needle

/-- Embedding of JavaScript `s.includes(sub)` (contiguous substring). -/
def jsIncludes (s sub : String) : Bool :=
  containsL s.toList sub.toList

/-- A table row as seen by the search engine and the component: an
association list from field name to string value. -/
abbrev SRow := List (String × String)

/-- Embedding of `record[field]` on a row: the first binding for `field`,
`none` for JavaScript `undefined`. -/
def getField (record : SRow) (field : String) : Option String :=
  (List.find? (fun p => p.1 = field) record).map Prod.snd

/-- Body of `dataTableSearchResult` after its initial
`searchValue = formatSearchString(searchValue)` re-assignment: `q` is the
already-formatted search value.  A record is kept when some searchable
field's lowercased value contains the whole lowercased query, or some
searchable field's value is truthy (non-empty) and its lowercased form is
one of the lowercased comma-separated terms. -/
def searchCore (q : String) (searchableFields : List String) (data : List SRow) : List SRow :=
  let searchValueLower := jsToLower q
  let searchValueArray := jsSplit (jsToLower q) ','
  data.filter (fun record =>
    (searchableFields.any (fun field =>
      match getField record field with
      | some v => jsIncludes (jsToLower v) searchValueLower
      | none => false)) ||
    (searchableFields.any (fun field =>
      match getField record field with
      | some v => v != "" && searchValueArray.contains (jsToLower v)
      | none => false)))

/-- Embedding of `dataTableSearchResult` (dataTableService): formats the
search value, then filters the data by the dual substring/exact-term
rule. -/
def dataTableSearchResult (searchValue : String) (searchableFields : List String)
    (data : List SRow) : List SRow :=
  searchCore (formatSearchString searchValue) searchableFields data

/-- A JavaScript value as handled by the sort engine.  `vNull` stands for
both `null` and `undefined` (the engine only ever tests them together via
loose `== null`, and `typeof` is never applied to them because the null
checks come first). -/
inductive Value where
  | vNull
  | vBool (b : Bool)
  | vNum (n : Int)
  | vStr (s : String)
  | vObj (fields : List (String × Value))

/-- JavaScript truthiness of a modelled value (`NaN` is not modelled). -/
def jsTruthy : Value → Bool
  | .vNull => false
  | .vBool b => b
  | .vNum n => n != 0
  | .vStr s => s != ""
  | .vObj _ => true

/-- Loose-equality-with-null test (`v == null`), true exactly for
null/undefined. -/
def isNullish : Value → Bool
  | .vNull => true
  | _ => false

/-- Strict equality of a value against a string literal
(`v === 'lit'`). -/
def isStrVal : Value → String → Bool
  | .vStr s, t => s = t
  | _, _ => false

/-- JavaScript `typeof` for the modelled non-null values (never applied
to `vNull` by the comparator, whose null checks come first). -/
def jsTypeof : Value → String
  | .vNull => "object"
  | .vBool _ => "boolean"
  | .vNum _ => "number"
  | .vStr _ => "string"
  | .vObj _ => "object"

/-- Property access `obj[key]` on a modelled value: field lookup on a
plain object, `undefined` otherwise (prototype properties of primitives,
such as `length` on a string, are not modelled). -/
def objGet (v : Value) (key : String) : Value :=
  match v with
  | .vObj fields =>
    match List.find? (fun p => p.1 = key) fields with
    | some p => p.2
    | none => .vNull
  | _ => .vNull

/-- Embedding of `resolveFieldValue` (dataTableService): a falsy record or
empty field path yields null; otherwise the dotted path is followed by
`reduce`, stepping through truthy accumulators and collapsing to null as
soon as the accumulator is falsy. -/
def resolveFieldValue (record : Value) (fieldPath : String) : Value :=
  if !jsTruthy record || fieldPath = "" then .vNull
  else (jsSplit fieldPath '.').foldl
    (fun obj key => if jsTruthy obj then objGet obj key else .vNull) record

/-- String() coercion of a modelled value (plain objects stringify to
"[object Object]"; called by the comparator only on non-null values of
mismatched types). -/
def jsString : Value → String
  | .vNull => "null"
  | .vBool b => if b then "true" else "false"
  | .vNum n => toString n
  | .vStr s => s
  | .vObj _ => "[object Object]"

/-- Three-way comparison of characters as an integer sign. -/
def chCompare (a b : Char) : Int :=
  if a < b then -1 else if a = b then 0 else 1

/-- Lexicographic three-way comparison of character lists. -/
def lexCompare : List Char → List Char → Int
  | [], [] => 0
  | [], _ :: _ => -1
  | _ :: _, [] => 1
  | a :: as, b :: bs => if a = b then lexCompare as bs else chCompare a b

/-- Model of `localeCompare` as code-point lexicographic comparison (sign
semantics only; no locale tailoring). -/
def strCompare (a b : String) : Int :=
  lexCompare a.toList b.toList

/-- Mutual stringification for `JSON.stringify` on modelled values (string
escaping beyond quoting is not modelled; the engine only ever stringifies
plain data objects). -/
def jsStringifyList (sep : String) : List (String × Value) → String
  | [] => ""
  | (k, v) :: rest =>
    sep ++ "\"" ++ k ++ "\":" ++
      (match v with
        | .vNull => "null"
        | .vBool b => if b then "true" else "false"
        | .vNum n => toString n
        | .vStr s => "\"" ++ s ++ "\""
        | .vObj fields => "\x7b" ++ jsStringifyList "" fields ++ "\x7d") ++
    jsStringifyList "," rest

/-- JSON.stringify of a modelled value. -/
def jsStringify : Value → String
  | .vNull => "null"
  | .vBool b => if b then "true" else "false"
  | .vNum n => toString n
  | .vStr s => "\"" ++ s ++ "\""
  | .vObj fields => "\x7b" ++ jsStringifyList "" fields ++ "\x7d"

/-- The comparator's type-directed switch, reached with two non-null
values of equal `typeof` (after the mismatched-type coercion to strings).
The `instanceof Date` test of the object branch is dead in context (the
compared rows come out of a JSON round trip), so objects go straight to
the canonicalised-text comparison. -/
def jsTypedCompare (asc : Bool) : Value → Value → Int
  | .vNum x, .vNum y => if asc then x - y else y - x
  | .vBool x, .vBool y =>
    if asc then (if x = y then 0 else if x then -1 else 1)
    else (if x = y then 0 else if x then 1 else -1)
  | .vStr x, .vStr y =>
    if asc then strCompare (jsToLower x) (jsToLower y)
    else strCompare (jsToLower y) (jsToLower x)
  | a, b =>
    if asc then strCompare (jsToLower (jsStringify a)) (jsToLower (jsStringify b))
    else strCompare (jsToLower (jsStringify b)) (jsToLower (jsStringify a))

/-- Embedding of the comparator closure inside `handleSort`: resolve the
field on both rows, send null/undefined to the end regardless of
direction, coerce both values to strings when their types differ, then
compare per type with the direction deciding the sign. -/
def sortCompare (sortDirection : Value) (fieldName : String) (a b : Value) : Int :=
  let valueA := resolveFieldValue a fieldName
  let valueB := resolveFieldValue b fieldName
  if isNullish valueA && isNullish valueB then 0
  else if isNullish valueA then 1
  else if isNullish valueB then -1
  else
    let p := if jsTypeof valueA = jsTypeof valueB then (valueA, valueB)
      else (Value.vStr (jsString valueA), Value.vStr (jsString valueB))
    jsTypedCompare (isStrVal sortDirection "asc") p.1 p.2

/-- Insertion of an element into a list ahead of the first element it does
not compare after, used to model `Array.prototype.sort` with a
three-way-integer comparator. -/
def insertCmp (cmp : α → α → Int) (a : α) : List α → List α
  | [] => [a]
  | b :: rest => if cmp a b ≤ 0 then a :: b :: rest else b :: insertCmp cmp a rest

/-- Stable comparator sort modelling `Array.prototype.sort(cmp)` (stable
per the ECMAScript specification). -/
def jsSort (cmp : α → α → Int) : List α → List α
  | [] => []
  | a :: rest => insertCmp cmp a (jsSort cmp rest)

/-- The `detail` payload of a well-formed sort event. -/
structure SortDetail where
  fieldName : Value
  sortDirection : Value

/-- A sort event whose `detail` may be absent (`undefined`), the way a
malformed event reaches `handleSort`. -/
structure SortEvent where
  detail : Option SortDetail

/-- The `try` body of `handleSort` (dataTableService) as a fallible
computation.  It throws (`.error`) exactly where the JavaScript body
throws: reading `fieldName` off an undefined `detail`, and calling
`split` on a truthy non-string `fieldName` inside `resolveFieldValue` —
which only happens once the comparator actually runs, i.e. when the
cloned data has at least two rows.  A falsy `fieldName` makes every
resolved value null, every comparison 0, and the stable sort a no-op.
The `JSON.parse(JSON.stringify(...))` deep copy is the identity on the
modelled values. -/
def handleSortBody (event : SortEvent) (tableData : List Value) : Except String (List Value) :=
  match event.detail with
  | none => .error "TypeError: cannot read properties of undefined"
  | some detail =>
    match detail.fieldName with
    | .vStr f => .ok (jsSort (sortCompare detail.sortDirection f) tableData)
    | fn =>
      if jsTruthy fn && decide (2 ≤ tableData.length) then
        .error "TypeError: fieldName.split is not a function"
      else .ok tableData

/-- Embedding of `handleSort` (dataTableService): the `try` body, with the
`catch` returning the original data on any internal throw.  Its total
type is the embedded form of "never propagates an exception". -/
def handleSort (event : SortEvent) (tableData : List Value) : List Value :=
  match handleSortBody event tableData with
  | .ok sorted => sorted
  | .error _ => tableData

/-- JavaScript `Set.add` on the insertion-ordered set of selected row ids
(appends when the element is new). -/
def setAdd (s : List String) (v : String) : List String :=
  if s.contains v then s else s ++ [v]

/-- The `event.detail` data consumed by `handleRowSelection`:
`config.action`, `config.value`, and the `selectedRows` batch of currently
selected rows supplied with the event. -/
structure SelEvent where
  action : String
  value : String
  selectedRows : List SRow

/-- The record returned by `handleRowSelection`.  `deselectedRecords`
entries may be `undefined` (modelled `none`) when a previously selected id
no longer resolves to a row of the data. -/
structure SelResult where
  deselectedRecords : List (Option SRow)
  selectedRows : List String
  selectedRecords : List SRow
deriving DecidableEq

/-- Does a row's `Id` field sit in the selected-id set?  A row without an
`Id` field never does (`set.has(undefined)` is false on a set of id
strings). -/
def rowIdSelected (sel : List String) (row : SRow) : Bool :=
  match getField row "Id" with
  | some i => sel.contains i
  | none => false

/-- Embedding of `handleRowSelection` (dataTableService).  `selectedRows0`
is the component's selected-id set (`tableComponent.selectedRows`) before
the event, modelled as an insertion-ordered duplicate-free list the way a
JavaScript `Set` iterates.  In the `selectAllRows` and `rowSelect`
branches a row without an `Id` field contributes no set entry (the
component's data contract gives every row an `Id`). -/
def handleRowSelection (event : SelEvent) (selectedRows0 : List String)
    (data : List SRow) : SelResult :=
  if event.action = "selectAllRows" then
    { deselectedRecords := []
      selectedRows := (data.filterMap (fun row => getField row "Id")).foldl setAdd []
      selectedRecords := data }
  else if event.action = "deselectAllRows" then
    { deselectedRecords := selectedRows0.map
        (fun id => data.find? (fun row => getField row "Id" = some id))
      selectedRows := []
      selectedRecords := [] }
  else if event.action = "rowSelect" then
    { deselectedRecords := []
      selectedRows := (event.selectedRows.filterMap (fun row => getField row "Id")).foldl
        setAdd selectedRows0
      selectedRecords := data.filter (fun row =>
        event.selectedRows.any (fun sel => getField sel "Id" = getField row "Id")) }
  else if event.action = "rowDeselect" then
    if event.selectedRows.length = 0 then
      { deselectedRecords := selectedRows0.map
          (fun id => data.find? (fun row => getField row "Id" = some id))
        selectedRows := []
        selectedRecords := [] }
    else
      let sel := selectedRows0.filter (fun id => id ≠ event.value)
      { deselectedRecords := (data.filter (fun row => !rowIdSelected sel row)).map some
        selectedRows := sel
        selectedRecords := data.filter (rowIdSelected sel) }
  else
    { deselectedRecords := []
      selectedRows := []
      selectedRecords := [] }

/-- Page size of the lazy-loading window (`PAGE_SIZE`). -/
def PAGE_SIZE : Nat := 15

/-- Component state of `AdvancedDataTable` relevant to the reconciliation
core: the raw server data `_tableData`, the working set `dataTableValue`
(post-search/sort), the rendered window `dataToShow`, the selected-id list
`selectedRowsArray`, and the search configuration. -/
structure Cmp where
  tableData : List SRow
  dataTableValue : List SRow
  dataToShow : List SRow
  selectedRowsArray : List String
  searchValue : String
  searchableFields : List String

/-- Embedding of `maintainSelectionState` (the component's reconciler
pass): keeps exactly the selected ids that are the `Id` of some row of
`this._tableData` — the raw server data, not the filtered working set. -/
def maintainSelectionState (c : Cmp) : Cmp :=
  { c with selectedRowsArray := c.selectedRowsArray.filter (fun rowId =>
      c.tableData.any (fun row => getField row "Id" = some rowId)) }

/-- Embedding of the component's `handleSearch`: a truthy (non-empty)
search value filters `_tableData` through the service search, an empty one
restores `_tableData`; the window becomes the first `PAGE_SIZE` rows and a
reconciler pass runs. -/
def handleSearch (c : Cmp) : Cmp :=
  let dtv := if c.searchValue ≠ "" then
      dataTableSearchResult (formatSearchString c.searchValue) c.searchableFields c.tableData
    else c.tableData
  maintainSelectionState { c with dataTableValue := dtv, dataToShow := dtv.take PAGE_SIZE }

/-- Embedding of the component's `handleLoadMore`: appends the next
`PAGE_SIZE` slice of the working set to the window (`slice(len, len +
PAGE_SIZE)`), then runs a reconciler pass.  Nothing in the `try` body can
throw on the modelled state, so the `catch` arm is dead. -/
def handleLoadMore (c : Cmp) : Cmp :=
  maintainSelectionState { c with dataToShow :=
    c.dataToShow ++ (c.dataTableValue.drop c.dataToShow.length).take PAGE_SIZE }

/-- A well-formed component sort event (`fieldName`/`sortDirection` as the
datatable emits them). -/
structure SortEv where
  fieldName : String
  sortDirection : String

/-- Field resolution on a flat string-valued row: a one-segment path is a
field lookup; a dotted path steps into a string value or `undefined` and
yields `undefined` (primitive property access is not modelled). -/
def resolveFieldValueS (record : SRow) (fieldPath : String) : Option String :=
  if fieldPath = "" then none
  else match jsSplit fieldPath '.' with
    | [k] => getField record k
    | _ => none

/-- The `handleSort` comparator specialised to flat string-valued rows:
null/undefined resolved values go last regardless of direction, and two
string values compare case-insensitively. -/
def sortCompareS (sortDirection fieldName : String) (a b : SRow) : Int :=
  match resolveFieldValueS a fieldName, resolveFieldValueS b fieldName with
  | none, none => 0
  | none, some _ => 1
  | some _, none => -1
  | some va, some vb =>
    if sortDirection = "asc" then strCompare (jsToLower va) (jsToLower vb)
    else strCompare (jsToLower vb) (jsToLower va)

/-- The service `handleSort` on flat string-valued rows and a well-formed
event: deep-copies (identity on the modelled rows) and sorts; nothing in
the `try` body can throw here, so the `catch` arm is dead. -/
def handleSortS (ev : SortEv) (tableData : List SRow) : List SRow :=
  jsSort (sortCompareS ev.sortDirection ev.fieldName) tableData

/-- Embedding of the component's `handleSort`: the service sorts
`_tableData`, the sorted copy becomes the working set, the window resets
to its first `PAGE_SIZE` rows, and a reconciler pass runs. -/
def cmpHandleSort (ev : SortEv) (c : Cmp) : Cmp :=
  let sorted := handleSortS ev c.tableData
  maintainSelectionState { c with dataTableValue := sorted, dataToShow := sorted.take PAGE_SIZE }

/-- The window invariant: the rendered window is the length-long take of
the working set, i.e. a contiguous prefix of it. -/
def WindowInv (c : Cmp) : Prop :=
  c.dataTableValue.take c.dataToShow.length = c.dataToShow

/-! ## Helper lemmas -/

theorem insertCmp_length (cmp : α → α → Int) (a : α) (l : List α) :
    (insertCmp cmp a l).length = l.length + 1 := by
  induction l with
  | nil => rfl
  | cons b rest ih =>
    unfold insertCmp
    split <;> simp [ih]

theorem jsSort_length (cmp : α → α → Int) (l : List α) :
    (jsSort cmp l).length = l.length := by
  induction l with
  | nil => rfl
  | cons a rest ih => simp [jsSort, insertCmp_length, ih]

/-! ## Claims about the service sort engine -/

/-- Claim C10: for every query, field list, and dataset,
`dataTableSearchResult` returns a subsequence of the input dataset —
every returned row is a row of the input, each input row occurrence
appears at most once, and rows keep their original relative order. -/
theorem claim_C10_search_sublist (searchValue : String) (searchableFields : List String)
    (data : List SRow) :
    List.Sublist (dataTableSearchResult searchValue searchableFields data) data := by
  unfold dataTableSearchResult searchCore
  exact List.filter_sublist data

theorem handleSort_eq_of_ok (event : SortEvent) (tableData sorted : List Value)
    (h : handleSortBody event tableData = .ok sorted) :
    handleSort event tableData = sorted := by
  unfold handleSort
  rw [h]

theorem handleSort_eq_of_error (event : SortEvent) (tableData : List Value) (e : String)
    (h : handleSortBody event tableData = .error e) :
    handleSort event tableData = tableData := by
  unfold handleSort
  rw [h]

theorem handleSortBody_ok_length (event : SortEvent) (tableData sorted : List Value)
    (h : handleSortBody event tableData = .ok sorted) :
    sorted.length = tableData.length := by
  rcases event with ⟨detail⟩
  cases detail with
  | none => cases h
  | some det =>
    rcases det with ⟨fn, sd⟩
    cases fn with
    | vStr f =>
      simp only [handleSortBody] at h
      cases h
      exact jsSort_length _ _
    | vNull =>
      simp only [handleSortBody] at h
      split at h
      · cases h
      · cases h
        rfl
    | vBool b =>
      simp only [handleSortBody] at h
      split at h
      · cases h
      · cases h
        rfl
    | vNum n =>
      simp only [handleSortBody] at h
      split at h
      · cases h
      · cases h
        rfl
    | vObj fields =>
      simp only [handleSortBody] at h
      split at h
      · cases h
      · cases h
        rfl

/-- Claim C8: for every dataset and sort event, `handleSort` returns a
dataset with exactly the same number of rows (both on the sorted path and
on the recovered error path).  That the input dataset itself is left
unchanged is inherent to the embedding: `handleSort` is a pure function of
its arguments and the engine sorts the `JSON` deep copy of its input. -/
theorem claim_C8_sort_length (event : SortEvent) (tableData : List Value) :
    (handleSort event tableData).length = tableData.length := by
  cases h : handleSortBody event tableData with
  | ok sorted =>
    rw [handleSort_eq_of_ok event tableData sorted h]
    exact handleSortBody_ok_length event tableData sorted h
  | error e => rw [handleSort_eq_of_error event tableData e h]

/-- Claim C7: whenever the `try` body of `handleSort` throws, the function
returns the original input dataset unchanged; the exception is never
propagated to the caller (the embedded `handleSort` is a total function
into datasets, not a fallible computation). -/
theorem claim_C7_sort_recovers (event : SortEvent) (tableData : List Value) (e : String)
    (h : handleSortBody event tableData = .error e) :
    handleSort event tableData = tableData :=
  handleSort_eq_of_error event tableData e h

/-- Witness for C7: a malformed sort event with an undefined `detail`
makes the body throw, and `handleSort` hands back the input rows. -/
theorem claim_C7_sort_recovers_witness :
    handleSortBody ⟨none⟩ [Value.vObj [("Name", Value.vStr "x")]] =
      Except.error "TypeError: cannot read properties of undefined" ∧
    handleSort ⟨none⟩ [Value.vObj [("Name", Value.vStr "x")]] =
      [Value.vObj [("Name", Value.vStr "x")]] :=
  ⟨rfl, claim_C7_sort_recovers ⟨none⟩ [Value.vObj [("Name", Value.vStr "x")]]
    "TypeError: cannot read properties of undefined" rfl⟩

theorem isNullish_eq_false (v : Value) (h : v ≠ Value.vNull) : isNullish v = false := by
  cases v with
  | vNull => exact absurd rfl h
  | vBool b => rfl
  | vNum n => rfl
  | vStr s => rfl
  | vObj fields => rfl

/-- Claim C4: in the sort comparator, a row whose resolved sort-key value
is null or missing (an absent field or an unresolvable dotted path both
resolve to null) is ordered after every row with a non-null value, for
every sort direction — the null checks precede the direction-sensitive
comparison — and two null-valued rows compare equal. -/
theorem claim_C4_nulls_sort_last (sortDirection : Value) (fieldName : String) (a b : Value) :
    (resolveFieldValue a fieldName = Value.vNull → resolveFieldValue b fieldName = Value.vNull →
      sortCompare sortDirection fieldName a b = 0) ∧
    (resolveFieldValue a fieldName = Value.vNull → resolveFieldValue b fieldName ≠ Value.vNull →
      sortCompare sortDirection fieldName a b = 1) ∧
    (resolveFieldValue a fieldName ≠ Value.vNull → resolveFieldValue b fieldName = Value.vNull →
      sortCompare sortDirection fieldName a b = -1) := by
  refine ⟨fun h1 h2 => ?_, fun h1 h2 => ?_, fun h1 h2 => ?_⟩
  · simp [sortCompare, h1, h2, isNullish]
  · simp [sortCompare, h1, h2, isNullish, isNullish_eq_false _ h2]
  · simp [sortCompare, h1, h2, isNullish, isNullish_eq_false _ h1]

/-- Witness for C4 at concrete rows: the value at the dotted path "a.b" is
missing on the first row and the number 2 on the second, so the first row
sorts after the second in both directions, and two rows missing the path
compare equal. -/
theorem claim_C4_nulls_sort_last_witness :
    sortCompare (Value.vStr "asc") "a.b"
      (Value.vObj [("x", Value.vNum 1)]) (Value.vObj [("a", Value.vObj [("b", Value.vNum 2)])]) = 1 ∧
    sortCompare (Value.vStr "desc") "a.b"
      (Value.vObj [("a", Value.vObj [("b", Value.vNum 2)])]) (Value.vObj [("x", Value.vNum 1)]) = -1 ∧
    sortCompare (Value.vStr "asc") "a.b"
      (Value.vObj [("x", Value.vNum 1)]) (Value.vObj [("y", Value.vNum 3)]) = 0 :=
  ⟨(claim_C4_nulls_sort_last (Value.vStr "asc") "a.b"
      (Value.vObj [("x", Value.vNum 1)]) (Value.vObj [("a", Value.vObj [("b", Value.vNum 2)])])).2.1
      rfl (by intro h; cases h),
   (claim_C4_nulls_sort_last (Value.vStr "desc") "a.b"
      (Value.vObj [("a", Value.vObj [("b", Value.vNum 2)])]) (Value.vObj [("x", Value.vNum 1)])).2.2
      (by intro h; cases h) rfl,
   (claim_C4_nulls_sort_last (Value.vStr "asc") "a.b"
      (Value.vObj [("x", Value.vNum 1)]) (Value.vObj [("y", Value.vNum 3)])).1 rfl rfl⟩

/-- Counterexample to claim C2 as stated: with both resolved values
boolean, the claimed order "ascending places false before true" requires
the comparator to return a positive number on a (true-valued, false-valued)
row pair in ascending direction — the code returns −1 (true sorts first),
and symmetrically +1 in descending direction. -/
theorem claim_C2_counterexample :
    sortCompare (Value.vStr "asc") "f"
      (Value.vObj [("f", Value.vBool true)]) (Value.vObj [("f", Value.vBool false)]) = -1 ∧
    ¬ (0 < sortCompare (Value.vStr "asc") "f"
      (Value.vObj [("f", Value.vBool true)]) (Value.vObj [("f", Value.vBool false)])) ∧
    sortCompare (Value.vStr "desc") "f"
      (Value.vObj [("f", Value.vBool true)]) (Value.vObj [("f", Value.vBool false)]) = 1 :=
  ⟨rfl, by decide, rfl⟩

/-- Claim C2 as amended: when both resolved sort-key values are booleans,
ascending order places true before false (comparator −1 on a true/false
pair, +1 on false/true, 0 on equal values), and descending order is the
inverse. -/
theorem claim_C2_amended_bool_order (fieldName : String) (a b : Value) (x y : Bool)
    (ha : resolveFieldValue a fieldName = Value.vBool x)
    (hb : resolveFieldValue b fieldName = Value.vBool y) :
    sortCompare (Value.vStr "asc") fieldName a b =
      (if x = y then 0 else if x then -1 else 1) ∧
    sortCompare (Value.vStr "desc") fieldName a b =
      (if x = y then 0 else if x then 1 else -1) := by
  constructor <;>
    simp [sortCompare, ha, hb, isNullish, jsTypeof, isStrVal, jsTypedCompare]

/-- Witness for the amended C2 at concrete rows: a false-valued row
against a true-valued one yields +1 ascending (false sorts after true)
and −1 descending. -/
theorem claim_C2_amended_bool_order_witness :
    sortCompare (Value.vStr "asc") "f"
      (Value.vObj [("f", Value.vBool false)]) (Value.vObj [("f", Value.vBool true)]) = 1 ∧
    sortCompare (Value.vStr "desc") "f"
      (Value.vObj [("f", Value.vBool false)]) (Value.vObj [("f", Value.vBool true)]) = -1 := by
  have h := claim_C2_amended_bool_order "f"
    (Value.vObj [("f", Value.vBool false)]) (Value.vObj [("f", Value.vBool true)])
    false true rfl rfl
  simpa using h

/-! ## Claims about the search engine -/

/-- Specification-side match predicate, written from claim C5's words: a
row matches when some configured field's lowercase value contains the full
normalized query as a substring, or some configured field's lowercase
value exactly equals one of the comma-separated terms of the query.  `q`
is the normalized query. -/
def specMatchC5 (q : String) (fields : List String) (record : SRow) : Bool :=
  (fields.any (fun field =>
    match getField record field with
    | some v => jsIncludes (jsToLower v) (jsToLower q)
    | none => false)) ||
  (fields.any (fun field =>
    match getField record field with
    | some v => (jsSplit (jsToLower q) ',').contains (jsToLower v)
    | none => false))

/-- Amended match predicate: as `specMatchC5`, except that the exact-term
disjunct additionally requires the field's value to be non-empty — the
code guards that branch with JavaScript truthiness of `record[field]`, and
the empty string is falsy. -/
def amendedMatchC5 (q : String) (fields : List String) (record : SRow) : Bool :=
  (fields.any (fun field =>
    match getField record field with
    | some v => jsIncludes (jsToLower v) (jsToLower q)
    | none => false)) ||
  (fields.any (fun field =>
    match getField record field with
    | some v => v != "" && (jsSplit (jsToLower q) ',').contains (jsToLower v)
    | none => false))

/-- Counterexample to claim C5 as stated: with searchable field `Name`,
query `","` and a row whose `Name` is the empty string, the row's `Name`
exactly equals the empty comma-separated term of the query, so the claimed
equivalence says the row is included — but the code's truthiness guard on
`record[field]` drops falsy (empty) values, and the result is empty. -/
theorem claim_C5_counterexample :
    dataTableSearchResult "," ["Name"] [[("Name", "")]] = [] ∧
    specMatchC5 (formatSearchString ",") ["Name"] [("Name", "")] = true :=
  ⟨rfl, rfl⟩

/-- Claim C5 as amended: a row is in the search result iff it is a row of
the data and some configured field's lowercase value contains the full
normalized query as a substring, or some configured field's value is
non-empty and its lowercase form exactly equals one of the comma-separated
terms of the query; a field absent on a row contributes no match and
raises no error (`record[field]?.` short-circuits).  In particular, with
fields [Name, Phone] and query "555-1234,Acme", a row whose Phone equals
"555-1234" matches even though no field contains the whole query. -/
theorem claim_C5_amended_search_match :
    (∀ (searchValue : String) (fields : List String) (data : List SRow) (record : SRow),
      record ∈ dataTableSearchResult searchValue fields data ↔
        record ∈ data ∧ amendedMatchC5 (formatSearchString searchValue) fields record = true) ∧
    ([("Name", "Foo Industries"), ("Phone", "555-1234")] : SRow) ∈
      dataTableSearchResult "555-1234,Acme" ["Name", "Phone"]
        [[("Name", "Foo Industries"), ("Phone", "555-1234")]] := by
  constructor
  · intro searchValue fields data record
    unfold dataTableSearchResult searchCore amendedMatchC5
    exact List.mem_filter
  · decide

/-! ## Claims about the selection tracker -/

/-- Claim C6: in `handleRowSelection` with action `rowDeselect`, an empty
batch of currently selected rows clears the whole selection — the result
coincides with the `deselectAllRows` action, `deselectedRecords` mapping
each previously selected id to its data row (undefined when unresolved)
and `selectedRecords` empty — while a non-empty batch removes exactly the
one id `value`, with `deselectedRecords` the data rows whose ids are not
in the resulting selection and `selectedRecords` the data rows whose ids
are in it. -/
theorem claim_C6_row_deselect (event : SelEvent) (selectedRows0 : List String)
    (data : List SRow) (hact : event.action = "rowDeselect") :
    (event.selectedRows = [] →
      handleRowSelection event selectedRows0 data =
        handleRowSelection { event with action := "deselectAllRows" } selectedRows0 data ∧
      handleRowSelection event selectedRows0 data =
        { deselectedRecords := selectedRows0.map
            (fun id => data.find? (fun row => getField row "Id" = some id))
          selectedRows := []
          selectedRecords := [] }) ∧
    (event.selectedRows ≠ [] →
      (handleRowSelection event selectedRows0 data).selectedRows =
        selectedRows0.filter (fun id => id ≠ event.value) ∧
      (handleRowSelection event selectedRows0 data).deselectedRecords =
        (data.filter (fun row =>
          !rowIdSelected (selectedRows0.filter (fun id => id ≠ event.value)) row)).map some ∧
      (handleRowSelection event selectedRows0 data).selectedRecords =
        data.filter (rowIdSelected (selectedRows0.filter (fun id => id ≠ event.value)))) := by
  rcases event with ⟨act, value, batch⟩
  simp only at hact
  subst hact
  constructor
  · intro hb
    simp only at hb
    subst hb
    exact ⟨by simp [handleRowSelection], by simp [handleRowSelection]⟩
  · intro hb
    simp only at hb
    have hlen : batch.length ≠ 0 := fun h => hb (List.length_eq_zero.mp h)
    simp [handleRowSelection, hlen]

/-- Witness for C6 at concrete inputs: deselecting id "b" with a non-empty
batch removes exactly "b" from the selection, and an empty batch clears
the selection entirely, matching `deselectAllRows`. -/
theorem claim_C6_row_deselect_witness :
    (handleRowSelection ⟨"rowDeselect", "b", [[("Id", "a")]]⟩ ["a", "b"]
        [[("Id", "a")], [("Id", "b")], [("Id", "c")]]).selectedRows =
      (["a", "b"].filter (fun id => id ≠ "b")) ∧
    handleRowSelection ⟨"rowDeselect", "b", []⟩ ["a", "b"]
        [[("Id", "a")], [("Id", "b")], [("Id", "c")]] =
      handleRowSelection ⟨"deselectAllRows", "b", []⟩ ["a", "b"]
        [[("Id", "a")], [("Id", "b")], [("Id", "c")]] :=
  ⟨((claim_C6_row_deselect ⟨"rowDeselect", "b", [[("Id", "a")]]⟩ ["a", "b"]
      [[("Id", "a")], [("Id", "b")], [("Id", "c")]] rfl).2 (by decide)).1,
   ((claim_C6_row_deselect ⟨"rowDeselect", "b", []⟩ ["a", "b"]
      [[("Id", "a")], [("Id", "b")], [("Id", "c")]] rfl).1 rfl).1⟩

/-! ## Claims about the component reconciler and window -/

/-- Concrete component state for the C1 counterexample: one server row
with Id "a", currently selected, and a pending search value that matches
none of its searchable fields. -/
def cexC1 : Cmp :=
  { tableData := [[("Id", "a"), ("Name", "alpha")]]
    dataTableValue := [[("Id", "a"), ("Name", "alpha")]]
    dataToShow := [[("Id", "a"), ("Name", "alpha")]]
    selectedRowsArray := ["a"]
    searchValue := "zzz"
    searchableFields := ["Name"] }

/-- Counterexample to claim C1 as stated: running `handleSearch` (which
ends with a `maintainSelectionState` reconciler pass) empties the working
dataset `dataTableValue` — the post-filter Dataset of the claim — yet the
selection still contains "a", because the reconciler prunes against the
raw `_tableData` rather than the filtered working set.  The selection is
therefore not a subset of the identifiers of the current Dataset. -/
theorem claim_C1_counterexample :
    (handleSearch cexC1).selectedRowsArray = ["a"] ∧
    (handleSearch cexC1).dataTableValue = [] ∧
    ¬ (∀ id ∈ (handleSearch cexC1).selectedRowsArray,
        ∃ row ∈ (handleSearch cexC1).dataTableValue, getField row "Id" = some id) := by
  refine ⟨by decide, by decide, ?_⟩
  intro h
  obtain ⟨row, hrow, -⟩ := h "a" (by decide)
  rw [show (handleSearch cexC1).dataTableValue = [] from by decide] at hrow
  cases hrow

/-- Claim C1 as amended: after a reconciler pass
(`maintainSelectionState`), every identifier remaining in the selection is
the Id of some row of the raw server dataset `_tableData` — the selection
is pruned against the full source data, not against the post-filter
working set, so ids absent from `_tableData` are dropped while ids merely
filtered out of the working set survive. -/
theorem claim_C1_amended_reconcile_subset (c : Cmp) (id : String)
    (h : id ∈ (maintainSelectionState c).selectedRowsArray) :
    ∃ row ∈ c.tableData, getField row "Id" = some id := by
  unfold maintainSelectionState at h
  simp only [List.mem_filter, List.any_eq_true, decide_eq_true_eq] at h
  exact h.2

/-- Witness for the amended C1: in the concrete state, id "a" survives the
reconciler pass, and the theorem produces its row in the raw dataset. -/
theorem claim_C1_amended_reconcile_subset_witness :
    ("a" ∈ (maintainSelectionState cexC1).selectedRowsArray) ∧
    ∃ row ∈ cexC1.tableData, getField row "Id" = some "a" :=
  ⟨by decide, claim_C1_amended_reconcile_subset cexC1 "a" (by decide)⟩

theorem take_length_take (l : List α) (n : Nat) :
    l.take ((l.take n).length) = l.take n := by
  rw [List.take_eq_take, List.length_take]
  omega

theorem windowInv_of_take (dtv ds : List SRow) (n : Nat) (h : ds = dtv.take n) :
    dtv.take ds.length = ds := by
  rw [h]
  exact take_length_take dtv n

theorem windowInv_length_le (c : Cmp) (h : WindowInv c) :
    c.dataToShow.length ≤ c.dataTableValue.length := by
  unfold WindowInv at h
  have := congrArg List.length h
  rw [List.length_take] at this
  omega

/-- Claim C9: if the rendered window is a contiguous prefix of the working
dataset, it remains one (with its length bounded by the dataset's) after
load-more, sort, and search; load-more appends the next `PAGE_SIZE` slice
of the working set, while sort and search reset the window to the first
`PAGE_SIZE` rows of the new working set. -/
theorem claim_C9_window_front (ev : SortEv) (c : Cmp) (hInv : WindowInv c) :
    (WindowInv (handleLoadMore c) ∧
      (handleLoadMore c).dataToShow =
        c.dataToShow ++ (c.dataTableValue.drop c.dataToShow.length).take PAGE_SIZE ∧
      (handleLoadMore c).dataToShow.length ≤ (handleLoadMore c).dataTableValue.length) ∧
    (WindowInv (cmpHandleSort ev c) ∧
      (cmpHandleSort ev c).dataToShow = (cmpHandleSort ev c).dataTableValue.take PAGE_SIZE ∧
      (cmpHandleSort ev c).dataToShow.length ≤ (cmpHandleSort ev c).dataTableValue.length) ∧
    (WindowInv (handleSearch c) ∧
      (handleSearch c).dataToShow = (handleSearch c).dataTableValue.take PAGE_SIZE ∧
      (handleSearch c).dataToShow.length ≤ (handleSearch c).dataTableValue.length) := by
  unfold WindowInv at hInv
  have hload : WindowInv (handleLoadMore c) := by
    show (handleLoadMore c).dataTableValue.take (handleLoadMore c).dataToShow.length =
      (handleLoadMore c).dataToShow
    unfold handleLoadMore maintainSelectionState
    simp only
    refine windowInv_of_take _ _ (c.dataToShow.length + PAGE_SIZE) ?_
    rw [List.take_add, hInv]
  have hsort : WindowInv (cmpHandleSort ev c) := by
    show (cmpHandleSort ev c).dataTableValue.take (cmpHandleSort ev c).dataToShow.length =
      (cmpHandleSort ev c).dataToShow
    unfold cmpHandleSort maintainSelectionState
    simp only
    exact windowInv_of_take _ _ PAGE_SIZE rfl
  have hsearch : WindowInv (handleSearch c) := by
    show (handleSearch c).dataTableValue.take (handleSearch c).dataToShow.length =
      (handleSearch c).dataToShow
    unfold handleSearch maintainSelectionState
    simp only
    exact windowInv_of_take _ _ PAGE_SIZE rfl
  refine ⟨⟨hload, rfl, windowInv_length_le _ hload⟩,
    ⟨hsort, rfl, windowInv_length_le _ hsort⟩,
    ⟨hsearch, rfl, windowInv_length_le _ hsearch⟩⟩

/-- Twenty rows with ids R1..R20 for the C9 load-more scenario. -/
def rows20 : List SRow :=
  (List.range 20).map (fun n => [("Id", "R" ++ toString (n + 1))])

/-- Component state for the C9 scenario: dataset of 20 rows, window the
initial first `PAGE_SIZE` (15) rows. -/
def c20 : Cmp :=
  { tableData := rows20
    dataTableValue := rows20
    dataToShow := rows20.take PAGE_SIZE
    selectedRowsArray := []
    searchValue := ""
    searchableFields := [] }

/-- Witness for C9 at the 20-row scenario: the initial window of 15 rows
is a prefix, and load-more grows it to all 20 rows in original order
while the invariant is preserved. -/
theorem claim_C9_window_front_witness :
    WindowInv (handleLoadMore c20) ∧
    (handleLoadMore c20).dataToShow = c20.dataTableValue ∧
    (handleLoadMore c20).dataToShow.length = 20 :=
  ⟨((claim_C9_window_front ⟨"Name", "asc"⟩ c20 (by unfold WindowInv; decide)).1).1,
   by decide, by decide⟩

theorem fmtAux_ws_absorb : ∀ (w pend m : List Char), (∀ c ∈ w, isWS c = true) →
    fmtAux false pend (w ++ m) = fmtAux false (w.reverse ++ pend) m := by
  intro w
  induction w with
  | nil => intro pend m _; simp
  | cons a w' ih =>
    intro pend m hw
    have ha : isWS a = true := hw a (List.mem_cons_self a w')
    show fmtAux false pend (a :: (w' ++ m)) = fmtAux false ((a :: w').reverse ++ pend) m
    have e1 : fmtAux false pend (a :: (w' ++ m)) = fmtAux false (a :: pend) (w' ++ m) := by
      simp [fmtAux, ha]
    rw [e1, ih (a :: pend) m (fun c hc => hw c (List.mem_cons_of_mem a hc))]
    simp

theorem fmtAux_true_head : ∀ l : List Char, fmtAux true [] l = [] ∨
    ∃ c rest, fmtAux true [] l = c :: rest ∧ isWS c = false := by
  intro l
  induction l with
  | nil => left; rfl
  | cons c rest ih =>
    by_cases hc : isWS c = true
    · have e : fmtAux true [] (c :: rest) = fmtAux true [] rest := by simp [fmtAux, hc]
      rw [e]
      exact ih
    · by_cases hcc : c = ','
      · subst hcc
        right
        exact ⟨',', fmtAux true [] rest, rfl, by decide⟩
      · right
        refine ⟨c, fmtAux false [] rest, ?_, by simpa using hc⟩
        simp [fmtAux, hc, hcc]

theorem fmtAux_true_eq_false (l : List Char)
    (h : l = [] ∨ ∃ c rest, l = c :: rest ∧ isWS c = false) :
    fmtAux true [] l = fmtAux false [] l := by
  rcases h with rfl | ⟨c, rest, rfl, hc⟩
  · rfl
  · simp [fmtAux, hc]

theorem fmtAux_idem : ∀ (l pend : List Char), (∀ c ∈ pend, isWS c = true) →
    fmtAux false [] (fmtAux false pend l) = fmtAux false pend l ∧
    fmtAux false [] (fmtAux true [] l) = fmtAux true [] l := by
  intro l
  induction l with
  | nil =>
    intro pend hp
    constructor
    · show fmtAux false [] pend.reverse = pend.reverse
      have habs := fmtAux_ws_absorb pend.reverse [] []
        (fun c hc => hp c (List.mem_reverse.mp hc))
      simpa [fmtAux] using habs
    · rfl
  | cons c rest ih =>
    intro pend hp
    by_cases hc : isWS c = true
    · constructor
      · have e1 : fmtAux false pend (c :: rest) = fmtAux false (c :: pend) rest := by
          simp [fmtAux, hc]
        rw [e1]
        refine (ih (c :: pend) ?_).1
        intro d hd
        rcases List.mem_cons.mp hd with rfl | hmem
        · exact hc
        · exact hp d hmem
      · have e2 : fmtAux true [] (c :: rest) = fmtAux true [] rest := by
          simp [fmtAux, hc]
        rw [e2]
        exact (ih [] (fun d hd => absurd hd (List.not_mem_nil d))).2
    · by_cases hcc : c = ','
      · subst hcc
        have hY : fmtAux true [] (fmtAux true [] rest) = fmtAux true [] rest := by
          rw [fmtAux_true_eq_false (fmtAux true [] rest) (fmtAux_true_head rest)]
          exact (ih [] (fun d hd => absurd hd (List.not_mem_nil d))).2
        have e1 : fmtAux false pend (',' :: rest) = ',' :: fmtAux true [] rest := rfl
        have outer : fmtAux false [] (',' :: fmtAux true [] rest) =
            ',' :: fmtAux true [] (fmtAux true [] rest) := rfl
        constructor
        · rw [e1, outer, hY]
        · rw [show fmtAux true [] (',' :: rest) = ',' :: fmtAux true [] rest from rfl,
            outer, hY]
      · have hz := (ih [] (fun d hd => absurd hd (List.not_mem_nil d))).1
        have estep : ∀ z : List Char, fmtAux false [] (c :: z) = c :: fmtAux false [] z := by
          intro z
          simp [fmtAux, hc, hcc]
        constructor
        · have e1 : fmtAux false pend (c :: rest) =
              pend.reverse ++ (c :: fmtAux false [] rest) := by
            simp [fmtAux, hc, hcc]
          rw [e1]
          have habs := fmtAux_ws_absorb pend.reverse [] (c :: fmtAux false [] rest)
            (fun d hd => hp d (List.mem_reverse.mp hd))
          rw [habs]
          simp only [List.reverse_reverse, List.append_nil]
          have e1' : fmtAux false pend (c :: fmtAux false [] rest) =
              pend.reverse ++ (c :: fmtAux false [] (fmtAux false [] rest)) := by
            simp [fmtAux, hc, hcc]
          rw [e1', hz]
        · have e2 : fmtAux true [] (c :: rest) = c :: fmtAux false [] rest := by
            simp [fmtAux, hc, hcc]
          rw [e2, estep, hz]

theorem formatSearchString_idem (s : String) :
    formatSearchString (formatSearchString s) = formatSearchString s := by
  unfold formatSearchString
  show String.mk (fmtAux false [] (fmtAux false [] s.toList)) = _
  rw [(fmtAux_idem s.toList [] (fun d hd => absurd hd (List.not_mem_nil d))).1]

/-- Counterexample to claim C3 as stated: the normalized form of
`" a , b "` is `" a,b "` — the spaces around the comma collapse, but the
leading and trailing spaces survive and affect matching — so filtering a
row whose `Name` is `"a"` with it returns nothing, while filtering with
`"a,b"` returns the row (its `Name` equals the term `"a"`). -/
theorem claim_C3_counterexample :
    dataTableSearchResult (formatSearchString " a , b ") ["Name"] [[("Name", "a")]] = [] ∧
    dataTableSearchResult "a,b" ["Name"] [[("Name", "a")]] = [[("Name", "a")]] ∧
    dataTableSearchResult (formatSearchString " a , b ") ["Name"] [[("Name", "a")]] ≠
      dataTableSearchResult "a,b" ["Name"] [[("Name", "a")]] :=
  ⟨rfl, rfl, by decide⟩

/-- Claim C3 as amended: search is invariant under normalization applied
to the raw query — for every dataset, field list, and raw query,
filtering with the normalized query returns exactly the same row subset as
filtering with the raw query, because the filter normalizes internally and
normalization is idempotent.  For `" a , b "` this means
`filter(normalize(" a , b ")) = filter(" a , b ") = filter(" a,b ")`,
not `filter("a,b")`: only whitespace adjacent to commas is collapsed. -/
theorem claim_C3_amended_normalize_invariant (searchValue : String) (fields : List String)
    (data : List SRow) :
    dataTableSearchResult (formatSearchString searchValue) fields data =
      dataTableSearchResult searchValue fields data := by
  unfold dataTableSearchResult
  rw [formatSearchString_idem]
